import Mathlib

/-!
# kvstore: an in-memory key-value store extension

A shallow embedding of `kvstore/extension.go` and `kvstore/primitives.go`.

* The store `KVStore` holds a Go `map[string]string` that may be nil (after
  `Close`).  A map is an association list with pairwise distinct keys; the
  order of its entries stands for the unspecified order in which a Go `range`
  loop visits the map.  The mutex is not modelled: every primitive is one
  critical section and is embedded as one sequential step.
* The host types (`values.Value`, `machine.MachineContext`,
  `registry.PrimitiveSpec`) are not part of the repository; they are modelled
  as far as the primitives use them.
* A primitive is a function from the store and the call frame to either a
  runtime fault or the new store, the new call frame and the returned `error`.
-/

/-! ## Go strings -/

/-- The bytes of a Go string holding text (its UTF-8 encoding). -/
def strBytes (s : String) : List Nat :=
  (s.data.flatMap String.utf8EncodeChar).map UInt8.toNat

/-- Lexicographic comparison of byte sequences. -/
def bytesLess : List Nat → List Nat → Bool
  | _, [] => false
  | [], _ :: _ => true
  | x :: xs, y :: ys => decide (x < y) || (decide (x = y) && bytesLess xs ys)

/-- Go's `a < b` on strings: byte-wise lexicographic comparison. -/
def strLess (a b : String) : Bool :=
  bytesLess (strBytes a) (strBytes b)

/-- The order `a <= b` on Go strings, that is `!(b < a)`. -/
def strLE (a b : String) : Prop :=
  strLess b a = false

instance strLE.decidable : DecidableRel strLE :=
  fun a b => inferInstanceAs (Decidable (strLess b a = false))

/-- Go's `sort.Strings`: sorts a slice of strings in increasing order.  Equal
strings are indistinguishable, so every sorting algorithm computes the same
slice; insertion sort is used here. -/
def sort.Strings (x : List String) : List String :=
  x.insertionSort strLE

/-! ## Host values (`github.com/aalpar/wile/values`) -/

/-- The dynamically typed values of the host, as far as the store meets them. -/
inductive values.Value where
  /-- a `*values.String` whose field `Value` is `s` -/
  | str (s : String)
  /-- a `*values.Integer` -/
  | integer (n : Int)
  /-- the value `values.Void` -/
  | void
  /-- the empty list -/
  | emptyList
  /-- a pair; it implements `values.Tuple` -/
  | pair (car cdr : values.Value)
  /-- any other host value (boolean, symbol, procedure, ...) -/
  | other (tag : Nat)
  deriving DecidableEq, Repr

/-- The sentinel errors, compared by identity. -/
inductive values.StaticError where
  /-- the host's sentinel `values.ErrNotAString` -/
  | ErrNotAString
  /-- a sentinel made by `values.NewStaticError(msg)` -/
  | NewStaticError (msg : String)
  deriving DecidableEq, Repr

/-- An operand of a format string. -/
inductive fmt.Arg where
  /-- a Go string -/
  | str (s : String)
  /-- a Go int -/
  | int (n : Int)
  /-- a host value, printed by its dynamic type (`%T`) -/
  | dyn (v : values.Value)
  deriving DecidableEq, Repr

/-- The error made by `values.WrapForeignErrorf`: it wraps the sentinel `err`
and carries the format string with its operands. -/
structure values.ForeignError where
  err : values.StaticError
  format : String
  args : List fmt.Arg
  deriving DecidableEq, Repr

/-- The call `values.WrapForeignErrorf(err, format, args...)`. -/
def values.WrapForeignErrorf (err : values.StaticError) (format : String)
    (args : List fmt.Arg) : values.ForeignError :=
  ⟨err, format, args⟩

/-- The test `errors.Is(e, target)`: the error wraps the sentinel `target`. -/
def values.ForeignError.Is (e : values.ForeignError) (target : values.StaticError) : Prop :=
  e.err = target

instance values.ForeignError.Is.decidable (e : values.ForeignError)
    (target : values.StaticError) : Decidable (e.Is target) :=
  inferInstanceAs (Decidable (e.err = target))

/-- One operand printed under one verb.  `quote` stands for Go's quoting of a
string under `%q` and `typeName` for the name of a value's dynamic type under
`%T`. -/
def fmt.verb (quote : String → String) (typeName : values.Value → String)
    (v : Char) (a : fmt.Arg) : List Char :=
  match a with
  | .str s => if v = 'q' then (quote s).data else if v = 's' then s.data else ['%', '!', v]
  | .int n => if v = 'd' then (toString n).data else ['%', '!', v]
  | .dyn x => if v = 'T' then (typeName x).data else ['%', '!', v]

/-- The characters of `fmt.Sprintf(format, args...)`: a `%` followed by a verb
consumes the next operand. -/
def fmt.chars (quote : String → String) (typeName : values.Value → String) :
    List Char → List fmt.Arg → List Char
  | [], _ => []
  | [c], _ => [c]
  | c :: v :: cs, [] => c :: fmt.chars quote typeName (v :: cs) []
  | c :: v :: cs, a :: as =>
    if c = '%' then fmt.verb quote typeName v a ++ fmt.chars quote typeName cs as
    else c :: fmt.chars quote typeName (v :: cs) (a :: as)

/-- The string `fmt.Sprintf(format, args...)`. -/
def fmt.Sprintf (quote : String → String) (typeName : values.Value → String)
    (format : String) (args : List fmt.Arg) : String :=
  ⟨fmt.chars quote typeName format.data args⟩

/-- The message of a foreign error: its format string with the operands
filled in. -/
def values.ForeignError.message (quote : String → String)
    (typeName : values.Value → String) (e : values.ForeignError) : String :=
  fmt.Sprintf quote typeName e.format e.args

/-- The constructor `values.NewString`. -/
def values.NewString (s : String) : values.Value := .str s

/-- The constructor `values.NewInteger`. -/
def values.NewInteger (n : Int) : values.Value := .integer n

/-- The value `values.Void`. -/
def values.Void : values.Value := .void

/-- The predicate `values.IsEmptyList`. -/
def values.IsEmptyList (v : values.Value) : Bool :=
  match v with
  | .emptyList => true
  | _ => false

/-- The type assertion `v.(values.Tuple)`: it succeeds on a pair, whose
`Car()` is the first component returned. -/
def values.asTuple (v : values.Value) : Option (values.Value × values.Value) :=
  match v with
  | .pair car cdr => some (car, cdr)
  | _ => none

/-- The type assertion `v.(*values.String)`, giving the field `Value`. -/
def values.asString (v : values.Value) : Option String :=
  match v with
  | .str s => some s
  | _ => none

/-- The call `values.List(elems...)`: the proper list of the elements. -/
def values.List (elems : List values.Value) : values.Value :=
  elems.foldr values.Value.pair values.Value.emptyList

/-! ## The call frame (`github.com/aalpar/wile/machine`) -/

/-- The call frame of one primitive invocation: the argument slots, and the
values stored into the output slot so far, the most recent first (the head is
the content of the slot). -/
structure machine.MachineContext where
  args : List values.Value
  written : List values.Value
  deriving DecidableEq, Repr

/-- The call `mc.Arg(i)`: the content of argument slot `i`, if the frame has
such a slot. -/
def machine.MachineContext.Arg (mc : machine.MachineContext) (i : Nat) : Option values.Value :=
  mc.args.get? i

/-- The call `mc.SetValue(v)`: stores `v` into the output slot. -/
def machine.MachineContext.SetValue (mc : machine.MachineContext) (v : values.Value) :
    machine.MachineContext :=
  ⟨mc.args, v :: mc.written⟩

/-! ## The store -/

namespace kvstore

open values machine

/-- A non-nil Go `map[string]string`. -/
abbrev GoMap := AList (fun _ : String => String)

/-- The sentinel `ErrKeyNotFound`. -/
def ErrKeyNotFound : StaticError := StaticError.NewStaticError "key not found"

/-- The struct `KVStore`: the field `data`, where `none` is the nil map. -/
structure KVStore where
  data : Option GoMap
  deriving DecidableEq

/-- The runtime faults (Go panics) that a primitive can run into. -/
inductive Fault where
  /-- assignment to an entry of a nil map -/
  | nilMapWrite
  /-- an argument slot is read that the frame does not have; the host builds
  every frame with the slots that the registration entry declares, so a
  primitive called by the host does not meet this case -/
  | argOutOfRange
  deriving DecidableEq, Repr

/-- What a primitive leaves behind when it returns: the store, the call
frame and the returned `error` (`none` is nil). -/
structure Step where
  kv : KVStore
  mc : MachineContext
  err : Option ForeignError
  deriving DecidableEq

/-- The outcome of running a primitive: a fault, or a return. -/
abbrev Run := Except Fault Step

/-- Go's `len(m)`; the length of a nil map is 0. -/
def mapLen (data : Option GoMap) : Nat :=
  match data with
  | none => 0
  | some m => m.entries.length

/-- The value stored under `key`, if there is one; a nil map has no entries. -/
def mapLookup (data : Option GoMap) (key : String) : Option String :=
  match data with
  | none => none
  | some m => m.lookup key

/-- Go's `val, found := m[key]`: the stored value and `true`, or the zero
value and `false`. -/
def mapIndex (data : Option GoMap) (key : String) : String × Bool :=
  match mapLookup data key with
  | some val => (val, true)
  | none => ("", false)

/-- Go's `delete(m, key)`; a no-op on a nil map and on an absent key. -/
def mapDelete (data : Option GoMap) (key : String) : Option GoMap :=
  match data with
  | none => none
  | some m => some (m.erase key)

/-- Go's `clear(m)`; a no-op on a nil map. -/
def mapClear (data : Option GoMap) : Option GoMap :=
  match data with
  | none => none
  | some _ => some ∅

/-- The keys that `for k := range m` visits, in the order of the visit. -/
def mapRange (data : Option GoMap) : List String :=
  match data with
  | none => []
  | some m => m.keys

/-- The constructor `New`: a store with an empty, non-nil map. -/
def New : KVStore := ⟨some ∅⟩

/-- The method `Name`. -/
def KVStore.Name (_ : KVStore) : String := "kvstore"

/-- The method `Close`: counts the entries, sets the map to nil, prints the
summary line and returns nil. The result is the store, the printed line and
the returned error. -/
def KVStore.Close (kv : KVStore) : KVStore × String × Option ForeignError :=
  let count := mapLen kv.data
  (⟨none⟩, "[kvstore] closed (had " ++ toString count ++ " entries)\n", none)

/-- The helper `requireString`: the string in argument slot `index`, or a type
error. The Go pair `(string, error)` is returned as it is. -/
def requireString (mc : MachineContext) (index : Nat) (name : String) :
    Except Fault (String × Option ForeignError) :=
  match mc.Arg index with
  | none => .error Fault.argOutOfRange
  | some v =>
    match asString v with
    | none => .ok ("", some (WrapForeignErrorf StaticError.ErrNotAString
        "%s: expected string at argument %d but got %T"
        [fmt.Arg.str name, fmt.Arg.int (index + 1), fmt.Arg.dyn v]))
    | some s => .ok (s, none)

/-- The primitive `kv-set!`. -/
def primSet (kv : KVStore) (mc : MachineContext) : Run :=
  match requireString mc 0 "kv-set!" with
  | .error f => .error f
  | .ok (_, some err) => .ok ⟨kv, mc, some err⟩
  | .ok (key, none) =>
    match requireString mc 1 "kv-set!" with
    | .error f => .error f
    | .ok (_, some err) => .ok ⟨kv, mc, some err⟩
    | .ok (val, none) =>
      match kv.data with
      | none => .error Fault.nilMapWrite
      | some m => .ok ⟨⟨some (m.insert key val)⟩, mc.SetValue Void, none⟩

/-- The block of `primGet` that parses the optional default from the rest
argument: `some d`
when `hasDefault` is set, with `defaultVal = d`, and `none` when it is not. -/
def parseDefault (rest : Value) : Option Value :=
  if !IsEmptyList rest then
    match asTuple rest with
    | some (car, _) => some car
    | none => none
  else none

/-- The primitive `kv-get`. -/
def primGet (kv : KVStore) (mc : MachineContext) : Run :=
  match requireString mc 0 "kv-get" with
  | .error f => .error f
  | .ok (_, some err) => .ok ⟨kv, mc, some err⟩
  | .ok (key, none) =>
    match mc.Arg 1 with
    | none => .error Fault.argOutOfRange
    | some rest =>
      match mapIndex kv.data key with
      | (_, false) =>
        match parseDefault rest with
        | some defaultVal => .ok ⟨kv, mc.SetValue defaultVal, none⟩
        | none => .ok ⟨kv, mc, some (WrapForeignErrorf ErrKeyNotFound
            "kv-get: key %q not found" [fmt.Arg.str key])⟩
      | (val, true) => .ok ⟨kv, mc.SetValue (NewString val), none⟩

/-- The primitive `kv-delete!`. -/
def primDelete (kv : KVStore) (mc : MachineContext) : Run :=
  match requireString mc 0 "kv-delete!" with
  | .error f => .error f
  | .ok (_, some err) => .ok ⟨kv, mc, some err⟩
  | .ok (key, none) => .ok ⟨⟨mapDelete kv.data key⟩, mc.SetValue Void, none⟩

/-- The primitive `kv-keys`. -/
def primKeys (kv : KVStore) (mc : MachineContext) : Run :=
  let keys := mapRange kv.data
  let keys := sort.Strings keys
  let elems := keys.map NewString
  .ok ⟨kv, mc.SetValue (values.List elems), none⟩

/-- The primitive `kv-count`. -/
def primCount (kv : KVStore) (mc : MachineContext) : Run :=
  let n := mapLen kv.data
  .ok ⟨kv, mc.SetValue (NewInteger (Int.ofNat n)), none⟩

/-- The primitive `kv-clear!`. -/
def primClear (kv : KVStore) (mc : MachineContext) : Run :=
  .ok ⟨⟨mapClear kv.data⟩, mc.SetValue Void, none⟩

end kvstore

/-- A registration entry (`registry.PrimitiveSpec`).  `Impl` is a method of
the store, so it takes the state of the store at the time of the call. -/
structure registry.PrimitiveSpec where
  Name : String
  ParamCount : Nat
  IsVariadic : Bool
  Impl : kvstore.KVStore → machine.MachineContext → kvstore.Run
  Doc : String
  ParamNames : List String
  Category : String

namespace kvstore

open values machine

/-- The registration table `primitiveSpecs`. -/
def primitiveSpecs : List registry.PrimitiveSpec :=
  [ ⟨"kv-set!", 2, false, primSet, "Set a key-value pair (both strings).",
      ["key", "value"], "kvstore"⟩,
    ⟨"kv-get", 2, true, primGet, "Get value by key. Optional default if key missing.",
      ["key", "default"], "kvstore"⟩,
    ⟨"kv-delete!", 1, false, primDelete, "Delete a key.", ["key"], "kvstore"⟩,
    ⟨"kv-keys", 0, false, primKeys, "Return a sorted list of all keys.", [], "kvstore"⟩,
    ⟨"kv-count", 0, false, primCount, "Return the number of entries.", [], "kvstore"⟩,
    ⟨"kv-clear!", 0, false, primClear, "Remove all entries.", [], "kvstore"⟩ ]

end kvstore

/-- The load phases of the host registry; the store only uses
`registry.PhaseRuntime`. -/
inductive registry.Phase where
  /-- the phase `registry.PhaseRuntime` -/
  | PhaseRuntime
  /-- any other phase of the host -/
  | other (tag : Nat)
  deriving DecidableEq, Repr

/-- The host registry, as far as the store meets it: the tables submitted to
it so far, each with its phase, the oldest first. -/
structure registry.Registry where
  added : List (List registry.PrimitiveSpec × registry.Phase)

/-- The call `r.AddPrimitives(specs, phase)`: one more submission. -/
def registry.Registry.AddPrimitives (r : registry.Registry)
    (specs : List registry.PrimitiveSpec) (phase : registry.Phase) : registry.Registry :=
  ⟨r.added ++ [(specs, phase)]⟩

namespace kvstore

open values machine

/-- The method `AddToRegistry`: the registry after the call and the returned
error. -/
def KVStore.AddToRegistry (_ : KVStore) (r : registry.Registry) :
    registry.Registry × Option ForeignError :=
  (r.AddPrimitives primitiveSpecs registry.Phase.PhaseRuntime, none)

/-- The calls `kv-set! k v` for the pairs `(k, v)` of a list, made one after
the other in the order of the list, each with a frame of its own: the store
after the last call, or `none` when a call faults or returns an error. -/
def setAll (kv : KVStore) : List (String × String) → Option KVStore
  | [] => some kv
  | p :: rest =>
    match primSet kv ⟨[Value.str p.1, Value.str p.2], []⟩ with
    | .ok ⟨kv1, _, none⟩ => setAll kv1 rest
    | _ => none

/-- The UTF-8 encoding of the code point `v`, in terms of division and
remainder. -/
def utf8Nat (v : Nat) : List Nat :=
  if v ≤ 127 then [v]
  else if v ≤ 2047 then [v / 64 % 32 + 192, v % 64 + 128]
  else if v ≤ 65535 then [v / 4096 % 16 + 224, v / 64 % 64 + 128, v % 64 + 128]
  else [v / 262144 % 8 + 240, v / 4096 % 64 + 128, v / 64 % 64 + 128, v % 64 + 128]

end kvstore

/-! ## Auxiliary facts -/

namespace kvstore

open values machine

theorem bytesLess_asymm : ∀ a b : List Nat, bytesLess a b = true → bytesLess b a = false
  | _, [] => by intro h; simp [bytesLess] at h
  | [], _ :: _ => by intro _; simp [bytesLess]
  | x :: xs, y :: ys => by
    intro h
    simp only [bytesLess, Bool.or_eq_true, Bool.and_eq_true, decide_eq_true_eq] at h
    simp only [bytesLess, Bool.or_eq_false_iff, Bool.and_eq_false_iff, decide_eq_false_iff_not]
    rcases h with h | ⟨h1, h2⟩
    · exact ⟨by omega, Or.inl (by omega)⟩
    · exact ⟨by omega, Or.inr (bytesLess_asymm xs ys h2)⟩

theorem bytesLess_trans_false : ∀ a b c : List Nat,
    bytesLess b a = false → bytesLess c b = false → bytesLess c a = false
  | [], _, c => by intro _ _; cases c <;> rfl
  | x :: xs, [], _ => by intro h1 _; simp [bytesLess] at h1
  | x :: xs, y :: ys, [] => by intro _ h2; simp [bytesLess] at h2
  | x :: xs, y :: ys, z :: zs => by
    intro h1 h2
    simp only [bytesLess, Bool.or_eq_false_iff, Bool.and_eq_false_iff,
      decide_eq_false_iff_not] at h1 h2 ⊢
    obtain ⟨h1a, h1b⟩ := h1
    obtain ⟨h2a, h2b⟩ := h2
    refine ⟨by omega, ?_⟩
    by_cases hzx : z = x
    · right
      have hyx : y = x := by omega
      have hzy : z = y := by omega
      have e1 : bytesLess ys xs = false := by
        rcases h1b with h | h
        · exact absurd hyx h
        · exact h
      have e2 : bytesLess zs ys = false := by
        rcases h2b with h | h
        · exact absurd hzy h
        · exact h
      exact bytesLess_trans_false xs ys zs e1 e2
    · left; exact hzx

theorem strLE_total (a b : String) : strLE a b ∨ strLE b a := by
  unfold strLE strLess
  cases h : bytesLess (strBytes b) (strBytes a) with
  | false => exact Or.inl rfl
  | true => exact Or.inr (bytesLess_asymm _ _ h)

theorem strLE_trans (a b c : String) : strLE a b → strLE b c → strLE a c := by
  unfold strLE strLess
  exact bytesLess_trans_false _ _ _

theorem sorted_sortStrings (x : List String) : (sort.Strings x).Sorted strLE := by
  haveI : IsTotal String strLE := ⟨strLE_total⟩
  haveI : IsTrans String strLE := ⟨strLE_trans⟩
  exact List.sorted_insertionSort strLE x

theorem perm_sortStrings (x : List String) : (sort.Strings x).Perm x :=
  List.perm_insertionSort strLE x

theorem mapRange_nodup (data : Option GoMap) : (mapRange data).Nodup := by
  cases data with
  | none => exact List.nodup_nil
  | some m => exact m.keys_nodup

theorem mapRange_length (data : Option GoMap) : (mapRange data).length = mapLen data := by
  cases data with
  | none => rfl
  | some m => simp [mapRange, mapLen, AList.keys, List.keys]

theorem mem_mapRange (data : Option GoMap) (k : String) :
    k ∈ mapRange data ↔ (mapLookup data k).isSome = true := by
  cases data with
  | none => simp [mapRange, mapLookup]
  | some m => simp [mapRange, mapLookup, AList.lookup_isSome, AList.mem_keys]

theorem mapIndex_of_lookup_none (data : Option GoMap) (k : String)
    (h : mapLookup data k = none) : mapIndex data k = ("", false) := by
  simp [mapIndex, h]

theorem mapIndex_of_lookup_some (data : Option GoMap) (k v : String)
    (h : mapLookup data k = some v) : mapIndex data k = (v, true) := by
  simp [mapIndex, h]

theorem primGet_found (kv : KVStore) (k v : String) (rest : Value) (w : List Value)
    (h : mapLookup kv.data k = some v) :
    primGet kv ⟨[Value.str k, rest], w⟩
      = .ok ⟨kv, ⟨[Value.str k, rest], NewString v :: w⟩, none⟩ := by
  simp [primGet, requireString, MachineContext.Arg, asString,
    mapIndex_of_lookup_some _ _ _ h, MachineContext.SetValue]

theorem primGet_absent (kv : KVStore) (k : String) (rest : Value) (w : List Value)
    (h : mapLookup kv.data k = none) :
    primGet kv ⟨[Value.str k, rest], w⟩
      = match parseDefault rest with
        | some d => .ok ⟨kv, ⟨[Value.str k, rest], d :: w⟩, none⟩
        | none => .ok ⟨kv, ⟨[Value.str k, rest], w⟩, some (WrapForeignErrorf ErrKeyNotFound
            "kv-get: key %q not found" [fmt.Arg.str k])⟩ := by
  simp only [primGet, requireString, MachineContext.Arg, asString, List.get?,
    mapIndex_of_lookup_none _ _ h, MachineContext.SetValue]

theorem primSet_open (m : GoMap) (k v : String) (w : List Value) :
    primSet ⟨some m⟩ ⟨[Value.str k, Value.str v], w⟩
      = .ok ⟨⟨some (m.insert k v)⟩, ⟨[Value.str k, Value.str v], Void :: w⟩, none⟩ := rfl

theorem primDelete_str (kv : KVStore) (k : String) (w : List Value) :
    primDelete kv ⟨[Value.str k], w⟩
      = .ok ⟨⟨mapDelete kv.data k⟩, ⟨[Value.str k], Void :: w⟩, none⟩ := rfl

theorem keyNotFound_message (quote : String → String) (typeName : Value → String) (k : String) :
    (WrapForeignErrorf ErrKeyNotFound "kv-get: key %q not found"
        [fmt.Arg.str k]).message quote typeName
      = "kv-get: key " ++ quote k ++ " not found" := by
  apply String.ext
  simp [ForeignError.message, WrapForeignErrorf, fmt.Sprintf, fmt.chars, fmt.verb]

theorem asString_of_not_str (v : Value) (h : ∀ s : String, v ≠ Value.str s) :
    asString v = none := by
  cases v with
  | str s => exact absurd rfl (h s)
  | integer n => rfl
  | void => rfl
  | emptyList => rfl
  | pair a b => rfl
  | other t => rfl

theorem requireString_bad (args w : List Value) (i : Nat) (name : String) (v : Value)
    (hv : args.get? i = some v) (h : asString v = none) :
    requireString ⟨args, w⟩ i name
      = .ok ("", some (WrapForeignErrorf StaticError.ErrNotAString
          "%s: expected string at argument %d but got %T"
          [fmt.Arg.str name, fmt.Arg.int (i + 1), fmt.Arg.dyn v])) := by
  simp only [requireString, MachineContext.Arg, hv, h]

theorem requireString_str (args w : List Value) (i : Nat) (name s : String)
    (hv : args.get? i = some (Value.str s)) :
    requireString ⟨args, w⟩ i name = .ok (s, none) := by
  simp only [requireString, MachineContext.Arg, hv, asString]

theorem mapDelete_mapDelete (data : Option GoMap) (k : String) :
    mapDelete (mapDelete data k) k = mapDelete data k := by
  cases data with
  | none => rfl
  | some m =>
    simp only [mapDelete, Option.some.injEq]
    apply AList.ext
    simp only [AList.erase]
    exact List.kerase_of_not_mem_keys (List.not_mem_keys_kerase k m.nodupKeys)

theorem mapDelete_absent (data : Option GoMap) (k : String) (h : mapLookup data k = none) :
    mapDelete data k = data := by
  cases data with
  | none => rfl
  | some m =>
    simp only [mapDelete, Option.some.injEq]
    apply AList.ext
    simp only [AList.erase]
    exact List.kerase_of_not_mem_keys (AList.lookup_eq_none.mp h)

theorem mapLookup_mapDelete (data : Option GoMap) (k : String) :
    mapLookup (mapDelete data k) k = none := by
  cases data with
  | none => rfl
  | some m => simp [mapDelete, mapLookup, AList.lookup_erase]

theorem mapLen_mapClear (data : Option GoMap) : mapLen (mapClear data) = 0 := by
  cases data <;> rfl

theorem mapRange_mapClear (data : Option GoMap) : mapRange (mapClear data) = [] := by
  cases data <;> rfl

theorem primSet_bad_key (kv : KVStore) (bad x : Value) (w : List Value)
    (hb : asString bad = none) :
    primSet kv ⟨[bad, x], w⟩
      = .ok ⟨kv, ⟨[bad, x], w⟩, some (WrapForeignErrorf StaticError.ErrNotAString
          "%s: expected string at argument %d but got %T"
          [fmt.Arg.str "kv-set!", fmt.Arg.int 1, fmt.Arg.dyn bad])⟩ := by
  simp only [primSet, requireString_bad [bad, x] w 0 _ bad rfl hb]
  rfl

theorem primSet_bad_value (kv : KVStore) (k : String) (bad : Value) (w : List Value)
    (hb : asString bad = none) :
    primSet kv ⟨[Value.str k, bad], w⟩
      = .ok ⟨kv, ⟨[Value.str k, bad], w⟩, some (WrapForeignErrorf StaticError.ErrNotAString
          "%s: expected string at argument %d but got %T"
          [fmt.Arg.str "kv-set!", fmt.Arg.int 2, fmt.Arg.dyn bad])⟩ := by
  simp only [primSet, requireString_str [Value.str k, bad] w 0 _ k rfl,
    requireString_bad [Value.str k, bad] w 1 _ bad rfl hb]
  rfl

theorem primGet_bad_key (kv : KVStore) (bad x : Value) (w : List Value)
    (hb : asString bad = none) :
    primGet kv ⟨[bad, x], w⟩
      = .ok ⟨kv, ⟨[bad, x], w⟩, some (WrapForeignErrorf StaticError.ErrNotAString
          "%s: expected string at argument %d but got %T"
          [fmt.Arg.str "kv-get", fmt.Arg.int 1, fmt.Arg.dyn bad])⟩ := by
  simp only [primGet, requireString_bad [bad, x] w 0 _ bad rfl hb]
  rfl

theorem primDelete_bad_key (kv : KVStore) (bad : Value) (w : List Value)
    (hb : asString bad = none) :
    primDelete kv ⟨[bad], w⟩
      = .ok ⟨kv, ⟨[bad], w⟩, some (WrapForeignErrorf StaticError.ErrNotAString
          "%s: expected string at argument %d but got %T"
          [fmt.Arg.str "kv-delete!", fmt.Arg.int 1, fmt.Arg.dyn bad])⟩ := by
  simp only [primDelete, requireString_bad [bad] w 0 _ bad rfl hb]
  rfl

theorem xor_written (P : Value → Prop) (st : Step) (mc : MachineContext) (v : Value)
    (h1 : st.err = none) (h2 : st.mc = mc.SetValue v) (h3 : P v) :
    Xor' (st.err = none ∧ ∃ v : Value, st.mc = mc.SetValue v ∧ P v)
      (st.err ≠ none ∧ st.mc = mc) :=
  Or.inl ⟨⟨h1, v, h2, h3⟩, fun h => h.1 h1⟩

theorem xor_failed (P : Value → Prop) (st : Step) (mc : MachineContext)
    (h1 : st.err ≠ none) (h2 : st.mc = mc) :
    Xor' (st.err = none ∧ ∃ v : Value, st.mc = mc.SetValue v ∧ P v)
      (st.err ≠ none ∧ st.mc = mc) :=
  Or.inr ⟨⟨h1, h2⟩, fun h => h1 h.1⟩

theorem mapLookup_insert (m : GoMap) (k v : String) :
    mapLookup (some (m.insert k v)) k = some v := by
  simp [mapLookup, AList.lookup_insert]

/-! ## The claims -/

/-- C1: on a store that is not closed, `kv-set! k v` succeeds (void result,
nil error) and afterwards `kv-get k` writes the string `v` and returns nil,
whatever the rest argument is (no default, or any default); a second
`kv-set! k v2` on the resulting store succeeds as well and afterwards `kv-get k`
gives `v2`, the most recently stored value. -/
theorem set_then_get (m : GoMap) (k v : String) (w : List Value) :
    ∃ kv1 : KVStore,
      primSet ⟨some m⟩ ⟨[Value.str k, Value.str v], w⟩
        = .ok ⟨kv1, ⟨[Value.str k, Value.str v], Void :: w⟩, none⟩ ∧
      (∀ (rest : Value) (w1 : List Value),
        primGet kv1 ⟨[Value.str k, rest], w1⟩
          = .ok ⟨kv1, ⟨[Value.str k, rest], NewString v :: w1⟩, none⟩) ∧
      (∀ (v2 : String) (w2 : List Value), ∃ kv2 : KVStore,
        primSet kv1 ⟨[Value.str k, Value.str v2], w2⟩
          = .ok ⟨kv2, ⟨[Value.str k, Value.str v2], Void :: w2⟩, none⟩ ∧
        ∀ (rest : Value) (w3 : List Value),
          primGet kv2 ⟨[Value.str k, rest], w3⟩
            = .ok ⟨kv2, ⟨[Value.str k, rest], NewString v2 :: w3⟩, none⟩) := by
  refine ⟨⟨some (m.insert k v)⟩, primSet_open m k v w, ?_, ?_⟩
  · intro rest w1
    exact primGet_found _ k v rest w1 (mapLookup_insert m k v)
  · intro v2 w2
    refine ⟨⟨some ((m.insert k v).insert k v2)⟩, primSet_open _ k v2 w2, ?_⟩
    intro rest w3
    exact primGet_found _ k v2 rest w3 (mapLookup_insert _ k v2)

/-- C2: for every store state and every text key `k` that is not stored,
`kv-get k` with an empty rest list returns an error and writes no result,
leaving the store as it is; the error wraps `ErrKeyNotFound`, does not wrap
`ErrNotAString`, and its message is `kv-get: key <quoted k> not found`. -/
theorem get_missing_without_default (kv : KVStore) (k : String) (w : List Value)
    (quote : String → String) (typeName : Value → String)
    (habsent : mapLookup kv.data k = none) :
    ∃ e : ForeignError,
      primGet kv ⟨[Value.str k, Value.emptyList], w⟩
        = .ok ⟨kv, ⟨[Value.str k, Value.emptyList], w⟩, some e⟩ ∧
      e.Is ErrKeyNotFound ∧ ¬ e.Is StaticError.ErrNotAString ∧
      e.message quote typeName = "kv-get: key " ++ quote k ++ " not found" := by
  refine ⟨WrapForeignErrorf ErrKeyNotFound "kv-get: key %q not found" [fmt.Arg.str k],
    ?_, rfl, ?_, keyNotFound_message quote typeName k⟩
  · rw [primGet_absent kv k _ w habsent]; rfl
  · intro h
    exact StaticError.noConfusion h

/-- Witness of C2: the key `missing` on a fresh store. -/
theorem get_missing_without_default_witness :
    mapLookup New.data "missing" = none ∧
    ∃ e : ForeignError,
      primGet New ⟨[Value.str "missing", Value.emptyList], []⟩
        = .ok ⟨New, ⟨[Value.str "missing", Value.emptyList], []⟩, some e⟩ ∧
      e.Is ErrKeyNotFound ∧ ¬ e.Is StaticError.ErrNotAString ∧
      e.message (fun s => s) (fun _ => "") = "kv-get: key " ++ "missing" ++ " not found" :=
  ⟨rfl, get_missing_without_default New "missing" [] _ _ rfl⟩

/-- C3: for every store state, every text key `k` that is not stored and every
default `d` of any type, `kv-get k d` writes exactly `d` and returns nil, the
store being left as it is. -/
theorem get_missing_with_default (kv : KVStore) (k : String) (d : Value) (w : List Value)
    (habsent : mapLookup kv.data k = none) :
    primGet kv ⟨[Value.str k, values.List [d]], w⟩
      = .ok ⟨kv, ⟨[Value.str k, values.List [d]], d :: w⟩, none⟩ := by
  rw [primGet_absent kv k _ w habsent]; rfl

/-- Witness of C3: the empty list and the empty string as defaults for the
key `missing` on a fresh store. -/
theorem get_missing_with_default_witness :
    mapLookup New.data "missing" = none ∧
    primGet New ⟨[Value.str "missing", values.List [Value.emptyList]], []⟩
      = .ok ⟨New, ⟨[Value.str "missing", values.List [Value.emptyList]], [Value.emptyList]⟩,
          none⟩ ∧
    primGet New ⟨[Value.str "missing", values.List [Value.str ""]], []⟩
      = .ok ⟨New, ⟨[Value.str "missing", values.List [Value.str ""]], [Value.str ""]⟩, none⟩ :=
  ⟨rfl, get_missing_with_default New "missing" Value.emptyList [] rfl,
    get_missing_with_default New "missing" (Value.str "") [] rfl⟩

/-- C4: for every store state, `kv-keys` writes the proper list of the strings
`ks` and `kv-count` writes the integer `ks.length`, where `ks` is sorted in
ascending byte-wise order, has no duplicates and holds exactly the stored
keys; both leave the store as it is and return nil. -/
theorem keys_sorted_count (kv : KVStore) (mc mc1 : MachineContext) :
    ∃ ks : List String,
      primKeys kv mc = .ok ⟨kv, mc.SetValue (values.List (ks.map NewString)), none⟩ ∧
      primCount kv mc1 = .ok ⟨kv, mc1.SetValue (NewInteger (Int.ofNat ks.length)), none⟩ ∧
      ks.Sorted strLE ∧ ks.Nodup ∧
      ∀ k : String, k ∈ ks ↔ (mapLookup kv.data k).isSome = true := by
  refine ⟨sort.Strings (mapRange kv.data), rfl, ?_, sorted_sortStrings _, ?_, ?_⟩
  · simp only [primCount, (perm_sortStrings (mapRange kv.data)).length_eq, mapRange_length]
  · exact (perm_sortStrings (mapRange kv.data)).nodup_iff.mpr (mapRange_nodup kv.data)
  · intro k
    rw [(perm_sortStrings (mapRange kv.data)).mem_iff]
    exact mem_mapRange kv.data k

/-- C5: for every store state and every value `bad` that is not a string,
`kv-set!` with `bad` as key (whatever the value), `kv-set!` with a text key and
`bad` as value, `kv-get` with `bad` as key (whatever the rest list) and
`kv-delete!` with `bad` as key all return an error wrapping `ErrNotAString`,
write no result and leave the store exactly as it was. -/
theorem type_error_before_mutation (kv : KVStore) (bad x : Value) (k : String)
    (w : List Value) (hbad : ∀ s : String, bad ≠ Value.str s) :
    (∃ e : ForeignError,
      primSet kv ⟨[bad, x], w⟩ = .ok ⟨kv, ⟨[bad, x], w⟩, some e⟩ ∧
      e.Is StaticError.ErrNotAString) ∧
    (∃ e : ForeignError,
      primSet kv ⟨[Value.str k, bad], w⟩ = .ok ⟨kv, ⟨[Value.str k, bad], w⟩, some e⟩ ∧
      e.Is StaticError.ErrNotAString) ∧
    (∃ e : ForeignError,
      primGet kv ⟨[bad, x], w⟩ = .ok ⟨kv, ⟨[bad, x], w⟩, some e⟩ ∧
      e.Is StaticError.ErrNotAString) ∧
    (∃ e : ForeignError,
      primDelete kv ⟨[bad], w⟩ = .ok ⟨kv, ⟨[bad], w⟩, some e⟩ ∧
      e.Is StaticError.ErrNotAString) := by
  have hb := asString_of_not_str bad hbad
  exact ⟨⟨_, primSet_bad_key kv bad x w hb, rfl⟩, ⟨_, primSet_bad_value kv k bad w hb, rfl⟩,
    ⟨_, primGet_bad_key kv bad x w hb, rfl⟩, ⟨_, primDelete_bad_key kv bad w hb, rfl⟩⟩

/-- Witness of C5: an integer in place of a string, on a store holding the
key `host`; the default `N/A` does not save `kv-get`. -/
theorem type_error_before_mutation_witness :
    (∀ s : String, Value.integer 42 ≠ Value.str s) ∧
    ((∃ e : ForeignError,
      primSet ⟨some (AList.singleton "host" "localhost")⟩
          ⟨[Value.integer 42, values.List [Value.str "N/A"]], []⟩
        = .ok ⟨⟨some (AList.singleton "host" "localhost")⟩,
            ⟨[Value.integer 42, values.List [Value.str "N/A"]], []⟩, some e⟩ ∧
      e.Is StaticError.ErrNotAString) ∧
    (∃ e : ForeignError,
      primSet ⟨some (AList.singleton "host" "localhost")⟩
          ⟨[Value.str "host", Value.integer 42], []⟩
        = .ok ⟨⟨some (AList.singleton "host" "localhost")⟩,
            ⟨[Value.str "host", Value.integer 42], []⟩, some e⟩ ∧
      e.Is StaticError.ErrNotAString) ∧
    (∃ e : ForeignError,
      primGet ⟨some (AList.singleton "host" "localhost")⟩
          ⟨[Value.integer 42, values.List [Value.str "N/A"]], []⟩
        = .ok ⟨⟨some (AList.singleton "host" "localhost")⟩,
            ⟨[Value.integer 42, values.List [Value.str "N/A"]], []⟩, some e⟩ ∧
      e.Is StaticError.ErrNotAString) ∧
    (∃ e : ForeignError,
      primDelete ⟨some (AList.singleton "host" "localhost")⟩ ⟨[Value.integer 42], []⟩
        = .ok ⟨⟨some (AList.singleton "host" "localhost")⟩, ⟨[Value.integer 42], []⟩, some e⟩ ∧
      e.Is StaticError.ErrNotAString)) :=
  ⟨fun _ h => Value.noConfusion h,
    type_error_before_mutation ⟨some (AList.singleton "host" "localhost")⟩ (Value.integer 42)
      (values.List [Value.str "N/A"]) "host" [] (fun _ h => Value.noConfusion h)⟩

/-- C6: for every store state and every text key `k`, `kv-delete! k` returns
nil with a void result; deleting `k` again from the resulting store succeeds
in the same way and leaves that store as it is; and when `k` was not stored,
the first deletion already leaves the store exactly as it was. -/
theorem delete_idempotent (kv : KVStore) (k : String) (w w1 : List Value) :
    ∃ kv1 : KVStore,
      primDelete kv ⟨[Value.str k], w⟩ = .ok ⟨kv1, ⟨[Value.str k], Void :: w⟩, none⟩ ∧
      primDelete kv1 ⟨[Value.str k], w1⟩ = .ok ⟨kv1, ⟨[Value.str k], Void :: w1⟩, none⟩ ∧
      (mapLookup kv.data k = none → kv1 = kv) := by
  refine ⟨⟨mapDelete kv.data k⟩, primDelete_str kv k w, ?_, ?_⟩
  · rw [primDelete_str, mapDelete_mapDelete]
  · intro h
    rw [mapDelete_absent kv.data k h]

/-- Witness of C6: deleting the absent key `port` from a store holding `host`
changes nothing. -/
theorem delete_idempotent_witness :
    mapLookup (some (AList.singleton "host" "localhost")) "port" = none ∧
    primDelete ⟨some (AList.singleton "host" "localhost")⟩ ⟨[Value.str "port"], []⟩
      = .ok ⟨⟨some (AList.singleton "host" "localhost")⟩, ⟨[Value.str "port"], [Void]⟩, none⟩ := by
  obtain ⟨kv1, h1, _, h3⟩ :=
    delete_idempotent ⟨some (AList.singleton "host" "localhost")⟩ "port" [] []
  have habs : mapLookup (some (AList.singleton "host" "localhost")) "port" = none := by decide
  refine ⟨habs, ?_⟩
  rw [h1, h3 habs]

/-- C7: on a freshly constructed store every `kv-get` with a text key and no
default fails with the key-not-found error; and for every store state and
text key `k`, after `kv-delete! k` a `kv-get k` with no default fails with the
key-not-found error, whatever `k` held before. -/
theorem absent_keys_not_found (kv : KVStore) (k : String) (w w1 : List Value) :
    primGet New ⟨[Value.str k, Value.emptyList], w⟩
      = .ok ⟨New, ⟨[Value.str k, Value.emptyList], w⟩,
          some (WrapForeignErrorf ErrKeyNotFound "kv-get: key %q not found" [fmt.Arg.str k])⟩ ∧
    ∃ kv1 : KVStore,
      primDelete kv ⟨[Value.str k], w⟩ = .ok ⟨kv1, ⟨[Value.str k], Void :: w⟩, none⟩ ∧
      primGet kv1 ⟨[Value.str k, Value.emptyList], w1⟩
        = .ok ⟨kv1, ⟨[Value.str k, Value.emptyList], w1⟩,
            some (WrapForeignErrorf ErrKeyNotFound "kv-get: key %q not found"
              [fmt.Arg.str k])⟩ := by
  refine ⟨?_, ⟨mapDelete kv.data k⟩, primDelete_str kv k w, ?_⟩
  · exact primGet_absent New k Value.emptyList w rfl
  · exact primGet_absent ⟨mapDelete kv.data k⟩ k Value.emptyList w1
      (mapLookup_mapDelete kv.data k)

/-- C8: for every store state, `kv-clear!` returns nil with a void result, and
on the resulting store `kv-count` writes 0 and `kv-keys` writes the empty
list. -/
theorem clear_then_empty (kv : KVStore) (mc mc1 mc2 : MachineContext) :
    ∃ kv1 : KVStore,
      primClear kv mc = .ok ⟨kv1, mc.SetValue Void, none⟩ ∧
      primCount kv1 mc1 = .ok ⟨kv1, mc1.SetValue (NewInteger 0), none⟩ ∧
      primKeys kv1 mc2 = .ok ⟨kv1, mc2.SetValue Value.emptyList, none⟩ := by
  refine ⟨⟨mapClear kv.data⟩, rfl, ?_, ?_⟩
  · simp only [primCount, mapLen_mapClear]; rfl
  · simp only [primKeys, mapRange_mapClear]; rfl

/-- Counterexample to C9: on a fresh store, `kv-get` with the key `missing`
and two extra arguments is accepted: it returns nil and writes the first extra
argument; it does not return an error. -/
theorem get_extra_arguments_counterexample :
    primGet New ⟨[Value.str "missing", values.List [Value.str "N/A", Value.str "extra"]], []⟩
      = .ok ⟨New, ⟨[Value.str "missing", values.List [Value.str "N/A", Value.str "extra"]],
          [Value.str "N/A"]⟩, none⟩ ∧
    ¬ ∃ (st : Step) (e : ForeignError),
      primGet New ⟨[Value.str "missing", values.List [Value.str "N/A", Value.str "extra"]], []⟩
        = .ok st ∧ st.err = some e := by
  have h : primGet New
      ⟨[Value.str "missing", values.List [Value.str "N/A", Value.str "extra"]], []⟩
      = .ok ⟨New, ⟨[Value.str "missing", values.List [Value.str "N/A", Value.str "extra"]],
          [Value.str "N/A"]⟩, none⟩ :=
    primGet_absent New "missing" _ [] rfl
  refine ⟨h, ?_⟩
  rintro ⟨st, e, h1, h2⟩
  rw [h] at h1
  injection h1 with h1
  subst h1
  exact Option.noConfusion h2

/-- C9, as amended: for every store state, `kv-get` with a text key followed
by one or more extra arguments is never rejected: it returns nil, leaves the
store as it is and writes the stored string when the key is stored and the
first extra argument when it is not; the further extra arguments are
ignored. -/
theorem get_extra_arguments_ignored (kv : KVStore) (k : String) (d : Value)
    (ds w : List Value) :
    primGet kv ⟨[Value.str k, values.List (d :: ds)], w⟩
      = .ok ⟨kv, ⟨[Value.str k, values.List (d :: ds)],
          (match mapLookup kv.data k with
            | some v => NewString v
            | none => d) :: w⟩, none⟩ := by
  cases h : mapLookup kv.data k with
  | none => exact primGet_absent kv k _ w h
  | some v => exact primGet_found kv k v _ w h

/-- C10: for every entry of the registration table, every store that is not
closed and every call frame that has the argument slots the entry declares,
the primitive returns, and exactly one of two things holds of the return:
the error is nil and one value was stored into the output slot (the void value
for `kv-set!`, `kv-delete!` and `kv-clear!`), or the error is not nil and the
output slot was not written. -/
theorem result_xor_error (spec : registry.PrimitiveSpec) (m : GoMap) (mc : MachineContext)
    (hspec : spec ∈ primitiveSpecs) (harity : spec.ParamCount ≤ mc.args.length) :
    ∃ st : Step, spec.Impl ⟨some m⟩ mc = .ok st ∧
      Xor'
        (st.err = none ∧ ∃ v : Value, st.mc = mc.SetValue v ∧
          (spec.Name ∈ ["kv-set!", "kv-delete!", "kv-clear!"] → v = Void))
        (st.err ≠ none ∧ st.mc = mc) := by
  obtain ⟨args, w⟩ := mc
  simp only [primitiveSpecs, List.mem_cons, List.mem_singleton, List.not_mem_nil,
    or_false] at hspec
  rcases hspec with rfl | rfl | rfl | rfl | rfl | rfl
  · match args, harity with
    | a :: b :: tl, _ =>
      dsimp only
      cases ha : asString a with
      | none =>
        simp only [primSet, requireString, MachineContext.Arg, List.get?, ha]
        exact ⟨_, rfl, xor_failed _ _ _ (by simp) rfl⟩
      | some k =>
        cases hb : asString b with
        | none =>
          simp only [primSet, requireString, MachineContext.Arg, List.get?, ha, hb]
          exact ⟨_, rfl, xor_failed _ _ _ (by simp) rfl⟩
        | some v =>
          simp only [primSet, requireString, MachineContext.Arg, List.get?, ha, hb]
          exact ⟨_, rfl, xor_written _ _ _ Void rfl rfl (fun _ => rfl)⟩
  · match args, harity with
    | a :: rest :: tl, _ =>
      dsimp only
      cases ha : asString a with
      | none =>
        simp only [primGet, requireString, MachineContext.Arg, List.get?, ha]
        exact ⟨_, rfl, xor_failed _ _ _ (by simp) rfl⟩
      | some k =>
        cases hl : mapLookup (some m) k with
        | some v =>
          simp only [primGet, requireString, MachineContext.Arg, List.get?, ha,
            mapIndex_of_lookup_some _ _ _ hl]
          exact ⟨_, rfl, xor_written _ _ _ (NewString v) rfl rfl (fun h => absurd h (by decide))⟩
        | none =>
          cases hd : parseDefault rest with
          | some d =>
            simp only [primGet, requireString, MachineContext.Arg, List.get?, ha,
              mapIndex_of_lookup_none _ _ hl, hd]
            exact ⟨_, rfl, xor_written _ _ _ d rfl rfl (fun h => absurd h (by decide))⟩
          | none =>
            simp only [primGet, requireString, MachineContext.Arg, List.get?, ha,
              mapIndex_of_lookup_none _ _ hl, hd]
            exact ⟨_, rfl, xor_failed _ _ _ (by simp) rfl⟩
  · match args, harity with
    | a :: tl, _ =>
      dsimp only
      cases ha : asString a with
      | none =>
        simp only [primDelete, requireString, MachineContext.Arg, List.get?, ha]
        exact ⟨_, rfl, xor_failed _ _ _ (by simp) rfl⟩
      | some k =>
        simp only [primDelete, requireString, MachineContext.Arg, List.get?, ha]
        exact ⟨_, rfl, xor_written _ _ _ Void rfl rfl (fun _ => rfl)⟩
  · exact ⟨_, rfl, xor_written _ _ _ _ rfl rfl (fun h => absurd h (by decide))⟩
  · exact ⟨_, rfl, xor_written _ _ _ _ rfl rfl (fun h => absurd h (by decide))⟩
  · exact ⟨_, rfl, xor_written _ _ _ Void rfl rfl (fun _ => rfl)⟩

/-- Witness of C10: the entry of `kv-get` on the empty store, with the key
`missing` and no default: the error is not nil and nothing is written. -/
theorem result_xor_error_witness :
    ∃ st : Step, primGet ⟨some ∅⟩ ⟨[Value.str "missing", Value.emptyList], []⟩ = .ok st ∧
      Xor'
        (st.err = none ∧ ∃ v : Value,
          st.mc = MachineContext.SetValue ⟨[Value.str "missing", Value.emptyList], []⟩ v ∧
          ("kv-get" ∈ ["kv-set!", "kv-delete!", "kv-clear!"] → v = Void))
        (st.err ≠ none ∧ st.mc = ⟨[Value.str "missing", Value.emptyList], []⟩) :=
  result_xor_error
    ⟨"kv-get", 2, true, primGet, "Get value by key. Optional default if key missing.",
      ["key", "default"], "kvstore"⟩
    ∅ ⟨[Value.str "missing", Value.emptyList], []⟩
    (List.Mem.tail _ (List.Mem.head _)) (Nat.le_refl 2)

/-! ## Further auxiliary facts -/

theorem mapLookup_insert_ne (m : GoMap) (k k2 v : String) (hne : k ≠ k2) :
    mapLookup (some (m.insert k v)) k2 = mapLookup (some m) k2 := by
  simp only [mapLookup]
  exact AList.lookup_insert_ne (Ne.symm hne)

theorem mapLookup_mapDelete_ne (data : Option GoMap) (k k2 : String) (hne : k ≠ k2) :
    mapLookup (mapDelete data k) k2 = mapLookup data k2 := by
  cases data with
  | none => rfl
  | some m =>
    simp only [mapLookup, mapDelete]
    exact AList.lookup_erase_ne (Ne.symm hne)

theorem mapLen_insert (m : GoMap) (k v : String) :
    mapLen (some (m.insert k v))
      = if mapLookup (some m) k = none then mapLen (some m) + 1 else mapLen (some m) := by
  rw [← mapRange_length, ← mapRange_length]
  simp only [mapRange, mapLookup, AList.keys_insert, List.length_cons]
  by_cases h : AList.lookup k m = none
  · rw [if_pos h, List.erase_of_not_mem (AList.lookup_eq_none.mp h)]
  · rw [if_neg h]
    have hmem : k ∈ m.keys := by
      by_contra hc
      exact h (AList.lookup_eq_none.mpr hc)
    rw [List.length_erase_of_mem hmem]
    have : 0 < m.keys.length := List.length_pos_of_mem hmem
    omega

theorem mapLen_mapDelete (data : Option GoMap) (k : String) :
    mapLen data
      = if mapLookup data k = none then mapLen (mapDelete data k)
        else mapLen (mapDelete data k) + 1 := by
  by_cases h : mapLookup data k = none
  · rw [if_pos h, mapDelete_absent data k h]
  · rw [if_neg h]
    cases data with
    | none => exact absurd rfl h
    | some m =>
      rw [← mapRange_length, ← mapRange_length]
      simp only [mapRange, mapDelete, AList.keys_erase]
      have hmem : k ∈ m.keys := by
        by_contra hc
        exact h (AList.lookup_eq_none.mpr hc)
      rw [List.length_erase_of_mem hmem]
      have : 0 < m.keys.length := List.length_pos_of_mem hmem
      omega

theorem primGet_store (kv : KVStore) (mc : MachineContext) (st : Step)
    (h : primGet kv mc = .ok st) : st.kv = kv := by
  obtain ⟨args, w⟩ := mc
  unfold primGet at h
  split at h
  · exact absurd h (by simp)
  · injection h with h; subst h; rfl
  · split at h
    · exact absurd h (by simp)
    · split at h
      · split at h
        · injection h with h; subst h; rfl
        · injection h with h; subst h; rfl
      · injection h with h; subst h; rfl

theorem primGet_returns (kv : KVStore) (mc : MachineContext) (h : 2 ≤ mc.args.length) :
    ∃ st : Step, primGet kv mc = .ok st := by
  obtain ⟨args, w⟩ := mc
  match args, h with
  | a :: rest :: tl, _ =>
    cases ha : asString a with
    | none =>
      simp only [primGet, requireString, MachineContext.Arg, List.get?, ha]
      exact ⟨_, rfl⟩
    | some k =>
      cases hl : mapLookup kv.data k with
      | some v =>
        simp only [primGet, requireString, MachineContext.Arg, List.get?, ha,
          mapIndex_of_lookup_some _ _ _ hl]
        exact ⟨_, rfl⟩
      | none =>
        cases hd : parseDefault rest with
        | some d =>
          simp only [primGet, requireString, MachineContext.Arg, List.get?, ha,
            mapIndex_of_lookup_none _ _ hl, hd]
          exact ⟨_, rfl⟩
        | none =>
          simp only [primGet, requireString, MachineContext.Arg, List.get?, ha,
            mapIndex_of_lookup_none _ _ hl, hd]
          exact ⟨_, rfl⟩

theorem primDelete_returns (kv : KVStore) (mc : MachineContext) (h : 1 ≤ mc.args.length) :
    ∃ st : Step, primDelete kv mc = .ok st := by
  obtain ⟨args, w⟩ := mc
  match args, h with
  | a :: tl, _ =>
    cases ha : asString a with
    | none =>
      simp only [primDelete, requireString, MachineContext.Arg, List.get?, ha]
      exact ⟨_, rfl⟩
    | some k =>
      simp only [primDelete, requireString, MachineContext.Arg, List.get?, ha]
      exact ⟨_, rfl⟩

theorem primSet_outcome (kv : KVStore) (mc : MachineContext) (h : 2 ≤ mc.args.length) :
    (∃ st : Step, primSet kv mc = .ok st) ∨ primSet kv mc = .error Fault.nilMapWrite := by
  obtain ⟨args, w⟩ := mc
  match args, h with
  | a :: b :: tl, _ =>
    cases ha : asString a with
    | none =>
      simp only [primSet, requireString, MachineContext.Arg, List.get?, ha]
      exact Or.inl ⟨_, rfl⟩
    | some k =>
      cases hb : asString b with
      | none =>
        simp only [primSet, requireString, MachineContext.Arg, List.get?, ha, hb]
        exact Or.inl ⟨_, rfl⟩
      | some v =>
        simp only [primSet, requireString, MachineContext.Arg, List.get?, ha, hb]
        cases kv with
        | mk data =>
          cases data with
          | none => exact Or.inr rfl
          | some m => exact Or.inl ⟨_, rfl⟩

theorem primSet_returns (m : GoMap) (mc : MachineContext) (h : 2 ≤ mc.args.length) :
    ∃ st : Step, primSet ⟨some m⟩ mc = .ok st := by
  obtain ⟨args, w⟩ := mc
  match args, h with
  | a :: b :: tl, _ =>
    cases ha : asString a with
    | none =>
      simp only [primSet, requireString, MachineContext.Arg, List.get?, ha]
      exact ⟨_, rfl⟩
    | some k =>
      cases hb : asString b with
      | none =>
        simp only [primSet, requireString, MachineContext.Arg, List.get?, ha, hb]
        exact ⟨_, rfl⟩
      | some v =>
        simp only [primSet, requireString, MachineContext.Arg, List.get?, ha, hb]
        exact ⟨_, rfl⟩

theorem mapLen_two_inserts (k1 k2 v1 v2 : String) (hne : k1 ≠ k2) :
    mapLen (some ((AList.insert k1 v1 (∅ : GoMap)).insert k2 v2)) = 2 := by
  have h1 : mapLookup (some (∅ : GoMap)) k1 = none := rfl
  have h2 : mapLookup (some (AList.insert k1 v1 (∅ : GoMap))) k2 = none := by
    rw [mapLookup_insert_ne _ k1 k2 v1 hne]; rfl
  rw [mapLen_insert, if_pos h2, mapLen_insert, if_pos h1]
  rfl

theorem primGet_closed_as_empty (mc : MachineContext) :
    (primGet ⟨none⟩ mc).map (fun st => (st.mc, st.err))
      = (primGet New mc).map (fun st => (st.mc, st.err)) := by
  have h : ∀ k : String, mapIndex (none : Option GoMap) k = mapIndex (some ∅) k := fun _ => rfl
  unfold primGet New
  simp only [h]
  split
  · rfl
  · rfl
  · split
    · rfl
    · split
      · split <;> rfl
      · rfl

theorem primDelete_closed_as_empty (mc : MachineContext) :
    (primDelete ⟨none⟩ mc).map (fun st => (st.mc, st.err))
      = (primDelete New mc).map (fun st => (st.mc, st.err)) := by
  unfold primDelete
  split <;> rfl

theorem shr_toUInt8 (v i : UInt32) (hi : i.toNat < 32) :
    (v >>> i).toUInt8.toNat = v.toNat / 2 ^ i.toNat % 256 := by
  have h1 : (v >>> i).toNat = v.toNat >>> i.toNat := by
    show (v.toBitVec >>> (UInt32.mod i 32).toBitVec).toNat = _
    have hmod : (UInt32.mod i 32).toBitVec.toNat = i.toNat := by
      show (i.toBitVec.umod (32 : UInt32).toBitVec).toNat = _
      rw [show i.toBitVec.umod (UInt32.toBitVec 32) = i.toBitVec % (UInt32.toBitVec 32) from rfl,
        BitVec.toNat_umod]
      exact Nat.mod_eq_of_lt hi
    show (v.toBitVec >>> (UInt32.mod i 32).toBitVec.toNat).toNat = _
    rw [BitVec.toNat_ushiftRight, hmod]
    rfl
  show (BitVec.ofNat 8 (v >>> i).toNat).toNat = _
  rw [BitVec.toNat_ofNat, h1, Nat.shiftRight_eq_div_pow]

theorem toUInt8_toNat (v : UInt32) : v.toUInt8.toNat = v.toNat % 256 := by
  show (BitVec.ofNat 8 v.toNat).toNat = _
  rw [BitVec.toNat_ofNat]

set_option maxRecDepth 100000 in
theorem byte_lead2 (x : UInt8) : (x &&& 0x1f ||| 0xc0).toNat = x.toNat % 32 + 192 := by
  rcases x with ⟨x⟩
  revert x
  decide

set_option maxRecDepth 100000 in
theorem byte_cont (x : UInt8) : (x &&& 0x3f ||| 0x80).toNat = x.toNat % 64 + 128 := by
  rcases x with ⟨x⟩
  revert x
  decide

set_option maxRecDepth 100000 in
theorem byte_lead3 (x : UInt8) : (x &&& 0x0f ||| 0xe0).toNat = x.toNat % 16 + 224 := by
  rcases x with ⟨x⟩
  revert x
  decide

set_option maxRecDepth 100000 in
theorem byte_lead4 (x : UInt8) : (x &&& 0x07 ||| 0xf0).toNat = x.toNat % 8 + 240 := by
  rcases x with ⟨x⟩
  revert x
  decide

theorem utf8EncodeChar_toNat (c : Char) :
    (String.utf8EncodeChar c).map UInt8.toNat = utf8Nat c.val.toNat := by
  have h6 := shr_toUInt8 c.val 6 (by decide)
  have h12 := shr_toUInt8 c.val 12 (by decide)
  have h18 := shr_toUInt8 c.val 18 (by decide)
  have h0 := toUInt8_toNat c.val
  have e6 : (6 : UInt32).toNat = 6 := rfl
  have e12 : (12 : UInt32).toNat = 12 := rfl
  have e18 : (18 : UInt32).toNat = 18 := rfl
  rw [e6] at h6
  rw [e12] at h12
  rw [e18] at h18
  have l1 : (c.val ≤ 0x7f) ↔ c.val.toNat ≤ 127 := Iff.rfl
  have l2 : (c.val ≤ 0x7ff) ↔ c.val.toNat ≤ 2047 := Iff.rfl
  have l3 : (c.val ≤ 0xffff) ↔ c.val.toNat ≤ 65535 := Iff.rfl
  unfold String.utf8EncodeChar utf8Nat
  simp only [l1, l2, l3]
  split_ifs <;>
    simp only [List.map_cons, List.map_nil, byte_lead2, byte_cont, byte_lead3, byte_lead4,
      h6, h12, h18, h0, List.cons.injEq, and_true] <;> omega

theorem utf8Nat_prefix_free (v u : Nat) (r s : List Nat) (hv : v < 1114112) (hu : u < 1114112)
    (h : utf8Nat v ++ r = utf8Nat u ++ s) : v = u ∧ r = s := by
  unfold utf8Nat at h
  split_ifs at h <;>
    simp only [List.cons_append, List.nil_append, List.cons.injEq] at h <;>
    first
    | (obtain ⟨h1, h2⟩ := h; exact ⟨by omega, h2⟩)
    | (obtain ⟨h1, h2, h3⟩ := h; exact ⟨by omega, h3⟩)
    | (obtain ⟨h1, h2, h3, h4⟩ := h; exact ⟨by omega, h4⟩)
    | (obtain ⟨h1, h2, h3, h4, h5⟩ := h; exact ⟨by omega, h5⟩)
    | (exfalso; obtain ⟨h1, _⟩ := h; omega)

theorem char_toNat_lt (c : Char) : c.val.toNat < 1114112 := by
  have h := c.valid
  simp only [UInt32.isValidChar, Nat.isValidChar] at h
  omega

theorem strBytes_eq (s : String) :
    strBytes s = s.data.flatMap (fun c => utf8Nat c.val.toNat) := by
  unfold strBytes
  induction s.data with
  | nil => rfl
  | cons c cs ih =>
    simp only [List.flatMap_cons, List.map_append, ih, utf8EncodeChar_toNat]

theorem utf8_chars_injective : ∀ cs ds : List Char,
    cs.flatMap (fun c => utf8Nat c.val.toNat) = ds.flatMap (fun c => utf8Nat c.val.toNat) →
    cs = ds
  | [], [] => fun _ => rfl
  | [], d :: ds => by
    intro h
    simp only [List.flatMap_nil, List.flatMap_cons] at h
    have hlen := congrArg List.length h
    have hpos : 0 < (utf8Nat d.val.toNat).length := by
      unfold utf8Nat; split_ifs <;> simp
    simp only [List.length_nil, List.length_append] at hlen
    omega
  | c :: cs, [] => by
    intro h
    simp only [List.flatMap_nil, List.flatMap_cons] at h
    have hlen := congrArg List.length h
    have hpos : 0 < (utf8Nat c.val.toNat).length := by
      unfold utf8Nat; split_ifs <;> simp
    simp only [List.length_nil, List.length_append] at hlen
    omega
  | c :: cs, d :: ds => by
    intro h
    simp only [List.flatMap_cons] at h
    obtain ⟨h1, h2⟩ := utf8Nat_prefix_free _ _ _ _ (char_toNat_lt c) (char_toNat_lt d) h
    have hcd : c = d := Char.ext (UInt32.toNat.inj h1)
    rw [hcd, utf8_chars_injective cs ds h2]

theorem strBytes_injective (a b : String) (h : strBytes a = strBytes b) : a = b := by
  rw [strBytes_eq, strBytes_eq] at h
  have := utf8_chars_injective a.data b.data h
  exact String.ext this

theorem bytesLess_antisymm : ∀ a b : List Nat,
    bytesLess a b = false → bytesLess b a = false → a = b
  | [], [] => fun _ _ => rfl
  | [], _ :: _ => by intro h _; simp [bytesLess] at h
  | _ :: _, [] => by intro _ h; simp [bytesLess] at h
  | x :: xs, y :: ys => by
    intro h1 h2
    simp only [bytesLess, Bool.or_eq_false_iff, Bool.and_eq_false_iff,
      decide_eq_false_iff_not] at h1 h2
    obtain ⟨h1a, h1b⟩ := h1
    obtain ⟨h2a, h2b⟩ := h2
    have hxy : x = y := by omega
    have e1 : bytesLess xs ys = false := by
      rcases h1b with h | h
      · exact absurd hxy h
      · exact h
    have e2 : bytesLess ys xs = false := by
      rcases h2b with h | h
      · exact absurd hxy.symm h
      · exact h
    rw [hxy, bytesLess_antisymm xs ys e1 e2]

theorem strLE_antisymm (a b : String) (h1 : strLE a b) (h2 : strLE b a) : a = b :=
  strBytes_injective a b (bytesLess_antisymm _ _ h2 h1)

theorem sortStrings_eq_of_perm (x y : List String) (h : x.Perm y) :
    sort.Strings x = sort.Strings y := by
  haveI : IsAntisymm String strLE := ⟨strLE_antisymm⟩
  exact List.eq_of_perm_of_sorted
    (((perm_sortStrings x).trans h).trans (perm_sortStrings y).symm)
    (sorted_sortStrings x) (sorted_sortStrings y)

theorem setAll_open (calls : List (String × String)) : ∀ m : GoMap,
    setAll ⟨some m⟩ calls
      = some ⟨some (calls.foldl (fun acc p => AList.insert p.1 p.2 acc) m)⟩ := by
  induction calls with
  | nil => intro m; rfl
  | cons p rest ih =>
    intro m
    simp only [setAll, primSet_open, List.foldl_cons]
    exact ih (m.insert p.1 p.2)

theorem keys_foldl_insert (calls : List (String × String)) : ∀ m : GoMap,
    (calls.map Prod.fst).Nodup → (∀ k ∈ calls.map Prod.fst, k ∉ m.keys) →
    (calls.foldl (fun acc p => AList.insert p.1 p.2 acc) m).keys.Perm
      (calls.map Prod.fst ++ m.keys) := by
  induction calls with
  | nil => intro m _ _; exact List.Perm.refl _
  | cons p rest ih =>
    intro m hnd hdisj
    simp only [List.map_cons, List.nodup_cons] at hnd
    have hp : p.1 ∉ m.keys := hdisj p.1 (by simp)
    have hkeys : (m.insert p.1 p.2).keys = p.1 :: m.keys := by
      rw [AList.keys_insert, List.erase_of_not_mem hp]
    have hdisj1 : ∀ k ∈ rest.map Prod.fst, k ∉ (m.insert p.1 p.2).keys := by
      intro k hk
      rw [hkeys]
      intro hmem
      rcases List.mem_cons.mp hmem with h | h
      · exact hnd.1 (h ▸ hk)
      · exact hdisj k (by simp only [List.map_cons]; exact List.mem_cons_of_mem _ hk) h
    have h := ih (m.insert p.1 p.2) hnd.2 hdisj1
    rw [hkeys] at h
    simp only [List.foldl_cons, List.map_cons, List.cons_append]
    exact h.trans List.perm_middle

theorem setAll_New_keys (calls : List (String × String)) (hnd : (calls.map Prod.fst).Nodup) :
    ∃ m : GoMap, setAll New calls = some ⟨some m⟩ ∧ m.keys.Perm (calls.map Prod.fst) := by
  refine ⟨calls.foldl (fun (acc : GoMap) (p : String × String) => AList.insert p.1 p.2 acc) ∅,
    setAll_open calls ∅, ?_⟩
  have h := keys_foldl_insert calls ∅ hnd (fun k _ => by simp)
  simpa using h

/-! ## The scenarios, the lifecycle and the frame properties -/

/-- C11: the end-to-end trace on a fresh store: after `kv-set!` of `host` to
`localhost` and of `port` to `8080`, `kv-get` of `host` writes `localhost`,
`kv-count` writes 2 and `kv-keys` writes the list of `host` and `port`; after
`kv-delete!` of `port`, `kv-count` writes 1 and `kv-keys` writes the list of
`host`; after `kv-clear!`, `kv-count` writes 0. Every call returns nil. -/
theorem end_to_end_trace :
    ∃ s1 s2 s3 s4 : KVStore,
      primSet New ⟨[Value.str "host", Value.str "localhost"], []⟩
        = .ok ⟨s1, ⟨[Value.str "host", Value.str "localhost"], [Void]⟩, none⟩ ∧
      primSet s1 ⟨[Value.str "port", Value.str "8080"], []⟩
        = .ok ⟨s2, ⟨[Value.str "port", Value.str "8080"], [Void]⟩, none⟩ ∧
      primGet s2 ⟨[Value.str "host", Value.emptyList], []⟩
        = .ok ⟨s2, ⟨[Value.str "host", Value.emptyList], [Value.str "localhost"]⟩, none⟩ ∧
      primCount s2 ⟨[], []⟩ = .ok ⟨s2, ⟨[], [Value.integer 2]⟩, none⟩ ∧
      primKeys s2 ⟨[], []⟩
        = .ok ⟨s2, ⟨[], [values.List [Value.str "host", Value.str "port"]]⟩, none⟩ ∧
      primDelete s2 ⟨[Value.str "port"], []⟩
        = .ok ⟨s3, ⟨[Value.str "port"], [Void]⟩, none⟩ ∧
      primCount s3 ⟨[], []⟩ = .ok ⟨s3, ⟨[], [Value.integer 1]⟩, none⟩ ∧
      primKeys s3 ⟨[], []⟩ = .ok ⟨s3, ⟨[], [values.List [Value.str "host"]]⟩, none⟩ ∧
      primClear s3 ⟨[], []⟩ = .ok ⟨s4, ⟨[], [Void]⟩, none⟩ ∧
      primCount s4 ⟨[], []⟩ = .ok ⟨s4, ⟨[], [Value.integer 0]⟩, none⟩ := by
  refine ⟨⟨some (AList.insert "host" "localhost" ∅)⟩,
    ⟨some (AList.insert "port" "8080" (AList.insert "host" "localhost" ∅))⟩,
    ⟨some (AList.erase "port" (AList.insert "port" "8080" (AList.insert "host" "localhost" ∅)))⟩,
    ⟨some ∅⟩, rfl, rfl, ?_, ?_, ?_, rfl, ?_, ?_, rfl, rfl⟩
  · exact primGet_found _ "host" "localhost" _ [] (by decide)
  · rfl
  · rfl
  · rfl
  · rfl

/-- C12: for every store state, `Close` returns a nil error, prints the line
`[kvstore] closed (had N entries)` where `N` is the number that `kv-count`
reports on the store at that instant, and leaves a store with no entry (every
lookup finds nothing, `kv-count` reports 0); after `kv-set!` on two distinct
keys on a fresh store the line reports 2. -/
theorem close_reports_count (kv : KVStore) (k1 k2 v1 v2 : String) (mc mc1 : MachineContext)
    (hne : k1 ≠ k2) :
    (KVStore.Close kv).2.2 = none ∧
    (∃ n : Nat,
      primCount kv mc = .ok ⟨kv, mc.SetValue (NewInteger (Int.ofNat n)), none⟩ ∧
      (KVStore.Close kv).2.1 = "[kvstore] closed (had " ++ toString n ++ " entries)\n") ∧
    (∀ k : String, mapLookup (KVStore.Close kv).1.data k = none) ∧
    primCount (KVStore.Close kv).1 mc1
      = .ok ⟨(KVStore.Close kv).1, mc1.SetValue (NewInteger 0), none⟩ ∧
    ∃ s1 s2 : KVStore,
      primSet New ⟨[Value.str k1, Value.str v1], []⟩
        = .ok ⟨s1, ⟨[Value.str k1, Value.str v1], [Void]⟩, none⟩ ∧
      primSet s1 ⟨[Value.str k2, Value.str v2], []⟩
        = .ok ⟨s2, ⟨[Value.str k2, Value.str v2], [Void]⟩, none⟩ ∧
      (KVStore.Close s2).2.1 = "[kvstore] closed (had 2 entries)\n" := by
  refine ⟨rfl, ⟨mapLen kv.data, rfl, rfl⟩, fun _ => rfl, rfl,
    ⟨some (AList.insert k1 v1 (∅ : GoMap))⟩,
    ⟨some ((AList.insert k1 v1 (∅ : GoMap)).insert k2 v2)⟩,
    primSet_open ∅ k1 v1 [], primSet_open _ k2 v2 [], ?_⟩
  simp only [KVStore.Close, mapLen_two_inserts k1 k2 v1 v2 hne]
  rfl

/-- Witness of C12: the keys `host` and `port`, and `Close` on a fresh
store, which reports 0. -/
theorem close_reports_count_witness :
    "host" ≠ "port" ∧
    (KVStore.Close New).2.1 = "[kvstore] closed (had 0 entries)\n" ∧
    ∃ s1 s2 : KVStore,
      primSet New ⟨[Value.str "host", Value.str "localhost"], []⟩
        = .ok ⟨s1, ⟨[Value.str "host", Value.str "localhost"], [Void]⟩, none⟩ ∧
      primSet s1 ⟨[Value.str "port", Value.str "8080"], []⟩
        = .ok ⟨s2, ⟨[Value.str "port", Value.str "8080"], [Void]⟩, none⟩ ∧
      (KVStore.Close s2).2.1 = "[kvstore] closed (had 2 entries)\n" :=
  ⟨by decide, rfl,
    (close_reports_count New "host" "port" "localhost" "8080" ⟨[], []⟩ ⟨[], []⟩
      (by decide)).2.2.2.2⟩

/-- C13: for every list of pairs with pairwise distinct text keys and every
order in which the `kv-set!` calls for these pairs are made on a fresh store,
all the calls succeed, and afterwards `kv-count` reports the number of pairs
and `kv-keys` writes the keys of the pairs sorted in ascending byte-wise
order, a list that does not depend on the order of the calls. -/
theorem sets_in_any_order (kvs calls : List (String × String)) (mc mc1 : MachineContext)
    (hdistinct : (kvs.map Prod.fst).Nodup) (horder : calls.Perm kvs) :
    ∃ kv1 : KVStore,
      setAll New calls = some kv1 ∧
      primCount kv1 mc = .ok ⟨kv1, mc.SetValue (NewInteger (Int.ofNat kvs.length)), none⟩ ∧
      primKeys kv1 mc1
        = .ok ⟨kv1, mc1.SetValue (values.List ((sort.Strings (kvs.map Prod.fst)).map NewString)),
            none⟩ ∧
      (sort.Strings (kvs.map Prod.fst)).Sorted strLE ∧
      (sort.Strings (kvs.map Prod.fst)).Perm (kvs.map Prod.fst) := by
  have hnd : (calls.map Prod.fst).Nodup := ((horder.map Prod.fst).nodup_iff).mpr hdistinct
  obtain ⟨m, hm, hkeys⟩ := setAll_New_keys calls hnd
  have hperm : m.keys.Perm (kvs.map Prod.fst) := hkeys.trans (horder.map Prod.fst)
  refine ⟨⟨some m⟩, hm, ?_, ?_, sorted_sortStrings _, perm_sortStrings _⟩
  · have hlen : mapLen (some m) = kvs.length := by
      rw [← mapRange_length]
      simpa [mapRange] using hperm.length_eq
    simp only [primCount, hlen]
  · have hsort : sort.Strings (mapRange (some m)) = sort.Strings (kvs.map Prod.fst) :=
      sortStrings_eq_of_perm _ _ hperm
    simp only [primKeys, hsort]

/-- Witness of C13: the calls for `port` and `host` made in the opposite
order. -/
theorem sets_in_any_order_witness :
    ∃ kv1 : KVStore,
      setAll New [("port", "8080"), ("host", "localhost")] = some kv1 ∧
      primCount kv1 ⟨[], []⟩
        = .ok ⟨kv1, MachineContext.SetValue ⟨[], []⟩ (NewInteger (Int.ofNat
            [("host", "localhost"), ("port", "8080")].length)), none⟩ ∧
      primKeys kv1 ⟨[], []⟩
        = .ok ⟨kv1, MachineContext.SetValue ⟨[], []⟩ (values.List ((sort.Strings
            ([("host", "localhost"), ("port", "8080")].map Prod.fst)).map NewString)), none⟩ ∧
      (sort.Strings ([("host", "localhost"), ("port", "8080")].map Prod.fst)).Sorted strLE ∧
      (sort.Strings ([("host", "localhost"), ("port", "8080")].map Prod.fst)).Perm
        ([("host", "localhost"), ("port", "8080")].map Prod.fst) :=
  sets_in_any_order [("host", "localhost"), ("port", "8080")]
    [("port", "8080"), ("host", "localhost")] ⟨[], []⟩ ⟨[], []⟩ (by decide)
    (List.Perm.swap _ _ _)

/-- C14: for every store state in which the text key `k` is stored with the
value `v`, and for every default `d`, `kv-get k d` writes the string `v`, not
the default, and returns nil, the store being left as it is. -/
theorem get_present_ignores_default (kv : KVStore) (k v : String) (d : Value)
    (w : List Value) (hpresent : mapLookup kv.data k = some v) :
    primGet kv ⟨[Value.str k, values.List [d]], w⟩
      = .ok ⟨kv, ⟨[Value.str k, values.List [d]], Value.str v :: w⟩, none⟩ :=
  primGet_found kv k v _ w hpresent

/-- Witness of C14: the key `host` with the default `N/A`. -/
theorem get_present_ignores_default_witness :
    mapLookup (some (AList.singleton "host" "localhost")) "host" = some "localhost" ∧
    primGet ⟨some (AList.singleton "host" "localhost")⟩
        ⟨[Value.str "host", values.List [Value.str "N/A"]], []⟩
      = .ok ⟨⟨some (AList.singleton "host" "localhost")⟩,
          ⟨[Value.str "host", values.List [Value.str "N/A"]], [Value.str "localhost"]⟩, none⟩ :=
  ⟨by decide,
    get_present_ignores_default ⟨some (AList.singleton "host" "localhost")⟩ "host" "localhost"
      (Value.str "N/A") [] (by decide)⟩

/-- C15: for every store state, `kv-get` on a frame that has its two slots
returns with the store exactly as it was, and on any frame at all it never
returns with a changed store, whichever path it takes; `kv-keys` and
`kv-count` return with the store exactly as it was on every frame. -/
theorem reads_do_not_mutate (kv : KVStore) (mc mc1 mc2 : MachineContext)
    (harity : 2 ≤ mc.args.length) :
    (∃ st : Step, primGet kv mc = .ok st ∧ st.kv = kv) ∧
    (∀ (frame : MachineContext) (st : Step), primGet kv frame = .ok st → st.kv = kv) ∧
    (∃ st : Step, primKeys kv mc1 = .ok st ∧ st.kv = kv) ∧
    (∃ st : Step, primCount kv mc2 = .ok st ∧ st.kv = kv) := by
  refine ⟨?_, fun frame st h => primGet_store kv frame st h, ⟨_, rfl, rfl⟩, ⟨_, rfl, rfl⟩⟩
  obtain ⟨st, h⟩ := primGet_returns kv mc harity
  exact ⟨st, h, primGet_store kv mc st h⟩

/-- Witness of C15: `kv-get` of the absent key `port` with the default `N/A`
on a store holding `host`. -/
theorem reads_do_not_mutate_witness :
    ∃ st : Step,
      primGet ⟨some (AList.singleton "host" "localhost")⟩
        ⟨[Value.str "port", values.List [Value.str "N/A"]], []⟩ = .ok st ∧
      st.kv = ⟨some (AList.singleton "host" "localhost")⟩ :=
  (reads_do_not_mutate ⟨some (AList.singleton "host" "localhost")⟩
    ⟨[Value.str "port", values.List [Value.str "N/A"]], []⟩ ⟨[], []⟩ ⟨[], []⟩
    (Nat.le_refl 2)).1

/-- C16: `AddToRegistry` returns a nil error and adds exactly one submission
to the registry: the table `primitiveSpecs` with the phase `PhaseRuntime`. The
table has six entries, named `kv-set!`, `kv-get`, `kv-delete!`, `kv-keys`,
`kv-count`, `kv-clear!`, pairwise distinct, with the parameter counts 2, 2, 1,
0, 0, 0; `kv-get` is the only variadic entry. -/
theorem registration_table (kv : KVStore) (r : registry.Registry) :
    (KVStore.AddToRegistry kv r).2 = none ∧
    (KVStore.AddToRegistry kv r).1.added
      = r.added ++ [(primitiveSpecs, registry.Phase.PhaseRuntime)] ∧
    primitiveSpecs.length = 6 ∧
    primitiveSpecs.map (fun s => (s.Name, s.ParamCount, s.IsVariadic))
      = [("kv-set!", 2, false), ("kv-get", 2, true), ("kv-delete!", 1, false),
          ("kv-keys", 0, false), ("kv-count", 0, false), ("kv-clear!", 0, false)] ∧
    (primitiveSpecs.map (fun s => s.Name)).Nodup ∧
    ∀ s ∈ primitiveSpecs, (s.IsVariadic = true ↔ s.Name = "kv-get") := by
  refine ⟨rfl, rfl, rfl, rfl, by decide, ?_⟩
  intro s hs
  simp only [primitiveSpecs, List.mem_cons, List.mem_singleton, List.not_mem_nil,
    or_false] at hs
  rcases hs with rfl | rfl | rfl | rfl | rfl | rfl <;> decide

/-- Counterexample to C17: on the closed store (the store that `Close` leaves
behind) the key `a` is absent and `kv-count` reports 0, but `kv-set!` of `a`
faults on the nil map; it does not return, so it does not raise the count. -/
theorem set_on_closed_store_counterexample :
    mapLookup (KVStore.Close New).1.data "a" = none ∧
    primCount (KVStore.Close New).1 ⟨[], []⟩
      = .ok ⟨(KVStore.Close New).1, ⟨[], [Value.integer 0]⟩, none⟩ ∧
    primSet (KVStore.Close New).1 ⟨[Value.str "a", Value.str "b"], []⟩
      = .error Fault.nilMapWrite ∧
    ¬ ∃ st : Step,
      primSet (KVStore.Close New).1 ⟨[Value.str "a", Value.str "b"], []⟩ = .ok st := by
  refine ⟨rfl, rfl, rfl, ?_⟩
  rintro ⟨st, h⟩
  exact Except.noConfusion h

/-- C17, as amended: for text keys `k` and `k2` that differ, on every store
that is not closed `kv-set! k v` returns, leaves the lookup of `k2` as it was
and raises the number reported by `kv-count` by exactly 1 when `k` was absent
and leaves it as it was when `k` was present; on every store state
`kv-delete! k` returns, leaves the lookup of `k2` as it was and lowers the
number reported by `kv-count` by exactly 1 when `k` was present and leaves it
as it was when `k` was absent. -/
theorem single_key_mutations (m : GoMap) (kv : KVStore) (k k2 v : String)
    (w : List Value) (mc : MachineContext) (hne : k ≠ k2) :
    (∃ (kv1 : KVStore) (n : Nat),
      primSet ⟨some m⟩ ⟨[Value.str k, Value.str v], w⟩
        = .ok ⟨kv1, ⟨[Value.str k, Value.str v], Void :: w⟩, none⟩ ∧
      mapLookup kv1.data k2 = mapLookup (some m) k2 ∧
      primCount ⟨some m⟩ mc = .ok ⟨⟨some m⟩, mc.SetValue (NewInteger (Int.ofNat n)), none⟩ ∧
      primCount kv1 mc = .ok ⟨kv1, mc.SetValue (NewInteger (Int.ofNat
        (if mapLookup (some m) k = none then n + 1 else n))), none⟩) ∧
    (∃ (kv2 : KVStore) (n : Nat),
      primDelete kv ⟨[Value.str k], w⟩ = .ok ⟨kv2, ⟨[Value.str k], Void :: w⟩, none⟩ ∧
      mapLookup kv2.data k2 = mapLookup kv.data k2 ∧
      primCount kv2 mc = .ok ⟨kv2, mc.SetValue (NewInteger (Int.ofNat n)), none⟩ ∧
      primCount kv mc = .ok ⟨kv, mc.SetValue (NewInteger (Int.ofNat
        (if mapLookup kv.data k = none then n else n + 1))), none⟩) := by
  refine ⟨⟨⟨some (m.insert k v)⟩, mapLen (some m), primSet_open m k v w,
      mapLookup_insert_ne m k k2 v hne, rfl, ?_⟩,
    ⟨⟨mapDelete kv.data k⟩, mapLen (mapDelete kv.data k), primDelete_str kv k w,
      mapLookup_mapDelete_ne kv.data k k2 hne, rfl, ?_⟩⟩
  · simp only [primCount, mapLen_insert m k v]
  · simp only [primCount]
    rw [← mapLen_mapDelete kv.data k]

/-- Witness of C17: setting and deleting `port` next to `host`. -/
theorem single_key_mutations_witness :
    "port" ≠ "host" ∧
    (∃ (kv1 : KVStore) (n : Nat),
      primSet ⟨some (AList.singleton "host" "localhost")⟩
          ⟨[Value.str "port", Value.str "8080"], []⟩
        = .ok ⟨kv1, ⟨[Value.str "port", Value.str "8080"], [Void]⟩, none⟩ ∧
      mapLookup kv1.data "host" = mapLookup (some (AList.singleton "host" "localhost")) "host" ∧
      primCount ⟨some (AList.singleton "host" "localhost")⟩ ⟨[], []⟩
        = .ok ⟨⟨some (AList.singleton "host" "localhost")⟩,
            MachineContext.SetValue ⟨[], []⟩ (NewInteger (Int.ofNat n)), none⟩ ∧
      primCount kv1 ⟨[], []⟩
        = .ok ⟨kv1, MachineContext.SetValue ⟨[], []⟩ (NewInteger (Int.ofNat
            (if mapLookup (some (AList.singleton "host" "localhost")) "port" = none
              then n + 1 else n))), none⟩) :=
  ⟨by decide,
    (single_key_mutations (AList.singleton "host" "localhost") New "port" "host" "8080" []
      ⟨[], []⟩ (by decide)).1⟩

/-- C18: for every entry of the registration table, every store state and
every frame that has exactly the `ParamCount` slots the entry declares, the
implementation never reads a slot that the frame does not have. The slots
that are read are there to be missed on a shorter frame: `kv-set!` and
`kv-get` read slots 0 and 1, `kv-delete!` reads slot 0. -/
theorem args_within_declared_arity (spec : registry.PrimitiveSpec) (kv : KVStore)
    (mc : MachineContext) (k : String) (w : List Value)
    (hspec : spec ∈ primitiveSpecs) (harity : mc.args.length = spec.ParamCount) :
    spec.Impl kv mc ≠ .error Fault.argOutOfRange ∧
    primSet kv ⟨[], w⟩ = .error Fault.argOutOfRange ∧
    primSet kv ⟨[Value.str k], w⟩ = .error Fault.argOutOfRange ∧
    primGet kv ⟨[], w⟩ = .error Fault.argOutOfRange ∧
    primGet kv ⟨[Value.str k], w⟩ = .error Fault.argOutOfRange ∧
    primDelete kv ⟨[], w⟩ = .error Fault.argOutOfRange := by
  refine ⟨?_, rfl, rfl, rfl, rfl, rfl⟩
  simp only [primitiveSpecs, List.mem_cons, List.mem_singleton, List.not_mem_nil,
    or_false] at hspec
  rcases hspec with rfl | rfl | rfl | rfl | rfl | rfl
  · rcases primSet_outcome kv mc (Nat.le_of_eq harity.symm) with ⟨st, h⟩ | h
    · intro hc
      exact Except.noConfusion (h.symm.trans hc)
    · intro hc
      have := h.symm.trans hc
      injection this with this
      exact Fault.noConfusion this
  · obtain ⟨st, h⟩ := primGet_returns kv mc (Nat.le_of_eq harity.symm)
    intro hc
    exact Except.noConfusion (h.symm.trans hc)
  · obtain ⟨st, h⟩ := primDelete_returns kv mc (Nat.le_of_eq harity.symm)
    intro hc
    exact Except.noConfusion (h.symm.trans hc)
  · intro hc
    exact Except.noConfusion hc
  · intro hc
    exact Except.noConfusion hc
  · intro hc
    exact Except.noConfusion hc

/-- Witness of C18: the entry of `kv-set!` on a frame of two slots. -/
theorem args_within_declared_arity_witness :
    primSet New ⟨[Value.str "host", Value.integer 1], []⟩ ≠ .error Fault.argOutOfRange :=
  (args_within_declared_arity
    ⟨"kv-set!", 2, false, primSet, "Set a key-value pair (both strings).",
      ["key", "value"], "kvstore"⟩
    New ⟨[Value.str "host", Value.integer 1], []⟩ "host" []
    (List.Mem.head _) rfl).1

/-- C19: `Close` leaves the nil map behind. On that store `kv-set!` with two
text arguments faults on the write to the nil map, while `kv-get` without
default gives the key-not-found error, `kv-delete!` and `kv-clear!` return
void, `kv-keys` writes the empty list and `kv-count` writes 0, the store
staying closed; on every frame these five write and return what they write and
return on a fresh store. On a store that is not closed no entry of the
registration table faults on a frame that has the slots the entry declares. -/
theorem closed_store_behaviour (kv : KVStore) (k v : String) (w : List Value)
    (mc : MachineContext) (spec : registry.PrimitiveSpec) (m : GoMap) (mc1 : MachineContext)
    (hspec : spec ∈ primitiveSpecs) (harity : spec.ParamCount ≤ mc1.args.length) :
    (KVStore.Close kv).1 = ⟨none⟩ ∧
    primSet ⟨none⟩ ⟨[Value.str k, Value.str v], w⟩ = .error Fault.nilMapWrite ∧
    primGet ⟨none⟩ ⟨[Value.str k, Value.emptyList], w⟩
      = .ok ⟨⟨none⟩, ⟨[Value.str k, Value.emptyList], w⟩,
          some (WrapForeignErrorf ErrKeyNotFound "kv-get: key %q not found" [fmt.Arg.str k])⟩ ∧
    primDelete ⟨none⟩ ⟨[Value.str k], w⟩ = .ok ⟨⟨none⟩, ⟨[Value.str k], Void :: w⟩, none⟩ ∧
    primKeys ⟨none⟩ mc = .ok ⟨⟨none⟩, mc.SetValue Value.emptyList, none⟩ ∧
    primCount ⟨none⟩ mc = .ok ⟨⟨none⟩, mc.SetValue (NewInteger 0), none⟩ ∧
    primClear ⟨none⟩ mc = .ok ⟨⟨none⟩, mc.SetValue Void, none⟩ ∧
    (primGet ⟨none⟩ mc).map (fun st => (st.mc, st.err))
      = (primGet New mc).map (fun st => (st.mc, st.err)) ∧
    (primDelete ⟨none⟩ mc).map (fun st => (st.mc, st.err))
      = (primDelete New mc).map (fun st => (st.mc, st.err)) ∧
    (primKeys ⟨none⟩ mc).map (fun st => (st.mc, st.err))
      = (primKeys New mc).map (fun st => (st.mc, st.err)) ∧
    (primCount ⟨none⟩ mc).map (fun st => (st.mc, st.err))
      = (primCount New mc).map (fun st => (st.mc, st.err)) ∧
    (primClear ⟨none⟩ mc).map (fun st => (st.mc, st.err))
      = (primClear New mc).map (fun st => (st.mc, st.err)) ∧
    ∃ st : Step, spec.Impl ⟨some m⟩ mc1 = .ok st := by
  refine ⟨rfl, rfl, rfl, rfl, rfl, rfl, rfl, primGet_closed_as_empty mc,
    primDelete_closed_as_empty mc, rfl, rfl, rfl, ?_⟩
  simp only [primitiveSpecs, List.mem_cons, List.mem_singleton, List.not_mem_nil,
    or_false] at hspec
  rcases hspec with rfl | rfl | rfl | rfl | rfl | rfl
  · exact primSet_returns m mc1 harity
  · exact primGet_returns _ mc1 harity
  · exact primDelete_returns _ mc1 harity
  · exact ⟨_, rfl⟩
  · exact ⟨_, rfl⟩
  · exact ⟨_, rfl⟩

/-- Witness of C19: after `Close` of a store holding `host`, `kv-set!` faults;
and the entry of `kv-set!` returns on the fresh store. -/
theorem closed_store_behaviour_witness :
    primSet (KVStore.Close ⟨some (AList.singleton "host" "localhost")⟩).1
        ⟨[Value.str "port", Value.str "8080"], []⟩ = .error Fault.nilMapWrite ∧
    ∃ st : Step, primSet ⟨some ∅⟩ ⟨[Value.str "port", Value.str "8080"], []⟩ = .ok st := by
  have h := closed_store_behaviour ⟨some (AList.singleton "host" "localhost")⟩ "port" "8080" []
    ⟨[], []⟩
    ⟨"kv-set!", 2, false, primSet, "Set a key-value pair (both strings).",
      ["key", "value"], "kvstore"⟩
    ∅ ⟨[Value.str "port", Value.str "8080"], []⟩ (List.Mem.head _) (Nat.le_refl 2)
  refine ⟨?_, h.2.2.2.2.2.2.2.2.2.2.2.2⟩
  rw [h.1]
  exact h.2.1

end kvstore
